import Mathlib

/-!
Verification of the validateJSON recursive validation engine
(src/validateJSON/__init__.py, class JSONValidator) against its
natural-language specification.

The engine is shallowly embedded: Python dicts become association lists
`List (String × JValue)`, Python type objects used in schemas become the
closed tag enumeration `JType`, Python `isinstance` and `==` become the
Boolean functions `isinstance` and `pyEq` (including the CPython quirk
that `bool` is a subclass of `int`), and a raised `KeyError` becomes the
`Except.error` side of `Except PyError Bool` (ordinary verdicts are
`Except.ok true/false`).  Floating-point values are not modelled; no
claim touches them.
-/

set_option linter.unusedVariables false

/-- Dynamically typed data value, as produced by parsing JSON-like data. -/
inductive JValue where
  | str (s : String)
  | int (n : Int)
  | bool (b : Bool)
  | null
  | list (xs : List JValue)
  | dict (entries : List (String × JValue))
deriving Repr

/-- Type tags a schema can mention (the Python type objects `str`, `int`,
`bool`, `list`, `dict` appearing as `param_type`). -/
inductive JType where
  | str
  | int
  | bool
  | list
  | dict
deriving Repr, DecidableEq

/-- Python `isinstance(value, tag)`.  CPython's `bool` is a subclass of
`int`, so a Boolean value passes an `int` type check. -/
def isinstance : JValue → JType → Bool
  | .str _, .str => true
  | .int _, .int => true
  | .bool _, .int => true
  | .bool _, .bool => true
  | .list _, .list => true
  | .dict _, .dict => true
  | _, _ => false

mutual
/-- Python `==` on data values.  `True == 1` and `False == 0` hold in
CPython because `bool` is an `int` subclass; containers compare
pointwise (dict entries are compared in order, which agrees with CPython
on the order-preserving dicts produced by parsing). -/
def pyEq : JValue → JValue → Bool
  | .str a, .str b => a == b
  | .int a, .int b => a == b
  | .bool a, .bool b => a == b
  | .bool a, .int b => (if a then (1 : Int) else 0) == b
  | .int a, .bool b => a == (if b then (1 : Int) else 0)
  | .null, .null => true
  | .list xs, .list ys => pyEqList xs ys
  | .dict xs, .dict ys => pyEqEntries xs ys
  | _, _ => false

/-- Pointwise Python `==` on value lists. -/
def pyEqList : List JValue → List JValue → Bool
  | [], [] => true
  | x :: xs, y :: ys => pyEq x y && pyEqList xs ys
  | _, _ => false

/-- Pointwise Python `==` on dict entry lists. -/
def pyEqEntries : List (String × JValue) → List (String × JValue) → Bool
  | [], [] => true
  | (k, x) :: xs, (l, y) :: ys => k == l && pyEq x y && pyEqEntries xs ys
  | _, _ => false
end

/-- Python `value in container` membership, `any(element == value)`. -/
def pyMem (v : JValue) (l : List JValue) : Bool :=
  l.any (fun w => pyEq w v)

/-- Python `key in json_object` for a dict. -/
def containsKey (j : List (String × JValue)) (k : String) : Bool :=
  j.any (fun p => p.fst == k)

/-- Python `json_object[key]` at a point where the key is known to be
present (the engine only evaluates it behind a presence check); the
`.null` default is unreachable there. -/
def lookupD (j : List (String × JValue)) (k : String) : JValue :=
  match j.find? (fun p => p.fst == k) with
  | some p => p.snd
  | none => JValue.null

/-- Models a Python `KeyError` escaping the engine. -/
inductive PyError where
  | missingKey (k : String)
  | missingBranch (v : JValue)
deriving Repr

/-- Python `json_object[key]` at a point where the key may be absent:
an absent key raises `KeyError` (modelled as `Except.error`). -/
def lookupE (j : List (String × JValue)) (k : String) : Except PyError JValue :=
  match j.find? (fun p => p.fst == k) with
  | some p => Except.ok p.snd
  | none => Except.error (PyError.missingKey k)

/-- View a value known to be a dict as its entry list; the engine only
does this after an `isinstance(·, dict)` check, so the `[]` default is
unreachable there. -/
def asDict : JValue → List (String × JValue)
  | .dict entries => entries
  | _ => []

mutual
/-- One entry of an `expected_keys` schema list: `param_name`,
`param_type`, and the optional `possible_values`, nested
`expected_keys` and `conditional_keys` fields of the Python dict. -/
inductive ExpectedKey where
  | mk (param_name : String) (param_type : JType)
       (possible_values : Option (List JValue))
       (expected_keys : Option (List ExpectedKey))
       (conditional_keys : Option ConditionalKeys)

/-- The `conditional_keys` field: `depends_on` plus `dependence_info`,
a dict from dependency values to branches. -/
inductive ConditionalKeys where
  | mk (depends_on : String) (dependence_info : List (JValue × Branch))

/-- One branch of `dependence_info`: its `expected_keys` and
`optional_keys` lists. -/
inductive Branch where
  | mk (expected_keys : List ExpectedKey) (optional_keys : List OptionalKey)

/-- One entry of an `optional_keys` schema list: `param_name`,
`param_type`, and the optional nested `optional_keys` field. -/
inductive OptionalKey where
  | mk (param_name : String) (param_type : JType)
       (optional_keys : Option (List OptionalKey))
end

def ExpectedKey.param_name : ExpectedKey → String
  | .mk n _ _ _ _ => n

def ExpectedKey.param_type : ExpectedKey → JType
  | .mk _ t _ _ _ => t

def ExpectedKey.possible_values : ExpectedKey → Option (List JValue)
  | .mk _ _ pv _ _ => pv

def ExpectedKey.expected_keys : ExpectedKey → Option (List ExpectedKey)
  | .mk _ _ _ nested _ => nested

def ExpectedKey.conditional_keys : ExpectedKey → Option ConditionalKeys
  | .mk _ _ _ _ cond => cond

def OptionalKey.param_name : OptionalKey → String
  | .mk n _ _ => n

def OptionalKey.param_type : OptionalKey → JType
  | .mk _ t _ => t

def OptionalKey.optional_keys : OptionalKey → Option (List OptionalKey)
  | .mk _ _ nested => nested

def Branch.expected_keys : Branch → List ExpectedKey
  | .mk eks _ => eks

def Branch.optional_keys : Branch → List OptionalKey
  | .mk _ oks => oks

/-- Python `dependence_info[depends_on_val]` as a partial lookup
(`none` models the `KeyError` on an unmatched branch). -/
def findBranch : List (JValue × Branch) → JValue → Option Branch
  | [], _ => none
  | (w, b) :: rest, v => if pyEq w v then some b else findBranch rest v

mutual
/-- Size of an expected-key descriptor, the termination measure for the
mutually recursive validator. -/
def sizeEK : ExpectedKey → Nat
  | .mk _ _ _ nested cond => 3 + sizeOptEKs nested + sizeOptCK cond

def sizeOptEKs : Option (List ExpectedKey) → Nat
  | none => 0
  | some l => sizeEKs l

def sizeEKs : List ExpectedKey → Nat
  | [] => 0
  | ek :: rest => sizeEK ek + sizeEKs rest

def sizeOptCK : Option ConditionalKeys → Nat
  | none => 0
  | some ck => sizeCK ck

def sizeCK : ConditionalKeys → Nat
  | .mk _ info => sizeBranches info

def sizeBranches : List (JValue × Branch) → Nat
  | [] => 0
  | (_, b) :: rest => sizeBranch b + sizeBranches rest

def sizeBranch : Branch → Nat
  | .mk eks _ => 2 + sizeEKs eks
end

mutual
/-- Size of an optional-key descriptor, the termination measure for
`validate_optional`. -/
def sizeOK : OptionalKey → Nat
  | .mk _ _ nested => 2 + sizeOptOKs nested

def sizeOptOKs : Option (List OptionalKey) → Nat
  | none => 0
  | some l => sizeOKs l

def sizeOKs : List OptionalKey → Nat
  | [] => 0
  | ok :: rest => sizeOK ok + sizeOKs rest
end

/-- `JSONValidator.validate_optional` (src/validateJSON/__init__.py,
lines 160-205): for each optional descriptor present in the data, check
its type; a present mapping-typed descriptor carrying a nested
`optional_keys` list returns the nested recursive verdict directly.
Every dict subscript it performs is behind a presence or type check, so
it cannot raise: the result is a plain `Bool`. -/
def validate_optional (j : List (String × JValue)) : List OptionalKey → Bool
  | [] => true
  | OptionalKey.mk name ty nested :: rest =>
    if containsKey j name then
      if !(isinstance (lookupD j name) ty) then false
      else if ty == JType.dict then
        match nested with
        | some noks => validate_optional (asDict (lookupD j name)) noks
        | none => validate_optional j rest
      else validate_optional j rest
    else validate_optional j rest
termination_by oks => sizeOKs oks
decreasing_by
  all_goals simp [sizeOKs, sizeOK, sizeOptOKs]
  all_goals omega

/-- The `contains_params` stage of `validate_expected` (lines 86-97):
every expected name is a key of the data mapping. -/
def allPresent (j : List (String × JValue)) (eks : List ExpectedKey) : Bool :=
  eks.all (fun ek => containsKey j ek.param_name)

/-- The `correct_types` stage of `validate_expected` (lines 100-117):
every expected key's value passes `isinstance` against its
`param_type`. -/
def allTypes (j : List (String × JValue)) (eks : List ExpectedKey) : Bool :=
  eks.all (fun ek => isinstance (lookupD j ek.param_name) ek.param_type)

/-- The `possible_values` test inside the per-descriptor loop
(lines 124-130): true when the field is set and the data value is not a
member. -/
def pvViolates (j : List (String × JValue)) (name : String) :
    Option (List JValue) → Bool
  | some pvs => !(pyMem (lookupD j name) pvs)
  | none => false

/-- The `valid_keys` computation of `validate` (lines 215-222). -/
def validKeys (eks : List ExpectedKey) (oks : Option (List OptionalKey)) :
    List String :=
  match oks with
  | some ol => eks.map ExpectedKey.param_name ++ ol.map OptionalKey.param_name
  | none => eks.map ExpectedKey.param_name

mutual
/-- `JSONValidator.validate_expected` (lines 25-158): presence of all
expected keys, then types of all expected keys, then the
per-descriptor refinement loop. -/
def validate_expected (j : List (String × JValue)) (eks : List ExpectedKey) :
    Except PyError Bool :=
  if !(allPresent j eks) then Except.ok false
  else if !(allTypes j eks) then Except.ok false
  else refineLoop j eks
termination_by sizeEKs eks + 1
decreasing_by simp [sizeEKs]

/-- The `for expected_key in expected_keys` refinement loop of
`validate_expected` (lines 120-158): per descriptor, the
`possible_values` check, then (for dict-typed descriptors) the nested
fixed sub-schema recursion through `validate_expected` itself and the
conditional-keys handling. -/
def refineLoop (j : List (String × JValue)) :
    List ExpectedKey → Except PyError Bool
  | [] => Except.ok true
  | ExpectedKey.mk name ty pv nested cond :: rest =>
    if pvViolates j name pv then Except.ok false
    else if ty == JType.dict then
      match nested with
      | some nek =>
        (validate_expected (asDict (lookupD j name)) nek).bind (fun b =>
          if b then condStep j name cond rest else Except.ok false)
      | none => condStep j name cond rest
    else refineLoop j rest
termination_by eks => sizeEKs eks
decreasing_by
  all_goals simp [sizeEKs, sizeEK, sizeOptEKs, sizeOptCK]
  all_goals omega

/-- The `conditional_keys` tail of one loop iteration (lines 144-158):
read the dependency value from the enclosing mapping (a raw subscript
that can raise `KeyError`), then look up the branch and recurse through
orchestration (`branchStep`); with no `conditional_keys` field the loop
moves to the remaining descriptors. -/
def condStep (j : List (String × JValue)) (name : String)
    (cond : Option ConditionalKeys) (rest : List ExpectedKey) :
    Except PyError Bool :=
  match cond with
  | some (ConditionalKeys.mk dep info) =>
    (lookupE j dep).bind (fun v => branchStep j name v info)
  | none => refineLoop j rest
termination_by sizeOptCK cond + sizeEKs rest + 2
decreasing_by
  all_goals simp [sizeOptCK, sizeCK]
  all_goals omega

/-- Python `dependence_info[depends_on_val]` followed by the
`return self.validate(...)` call (lines 149-156): a linear scan standing
for the dict lookup; no matching branch raises `KeyError` (the schema
fault), a matching branch returns the orchestration verdict on the
nested mapping with that branch's expected and optional lists. -/
def branchStep (j : List (String × JValue)) (name : String) (v : JValue) :
    List (JValue × Branch) → Except PyError Bool
  | [] => Except.error (PyError.missingBranch v)
  | (w, Branch.mk beks boks) :: rest' =>
    if pyEq w v then validate (asDict (lookupD j name)) beks (some boks)
    else branchStep j name v rest'
termination_by info => sizeBranches info + 1
decreasing_by
  all_goals simp [sizeBranches, sizeBranch]
  all_goals omega

/-- `JSONValidator.validate` (lines 207-250): reject any key of the data
mapping outside `valid_keys`, then run expected validation, then (when
an optional list was supplied) optional validation. -/
def validate (j : List (String × JValue)) (eks : List ExpectedKey)
    (oks : Option (List OptionalKey)) : Except PyError Bool :=
  if !(j.all (fun p => (validKeys eks oks).contains p.fst)) then Except.ok false
  else
    (validate_expected j eks).bind (fun b =>
      if b then
        match oks with
        | some ol =>
          if validate_optional j ol then Except.ok true else Except.ok false
        | none => Except.ok true
      else Except.ok false)
termination_by sizeEKs eks + 2
decreasing_by simp [sizeEKs]
end

def ConditionalKeys.depends_on : ConditionalKeys → String
  | .mk d _ => d

def ConditionalKeys.dependence_info : ConditionalKeys → List (JValue × Branch)
  | .mk _ info => info

/-- The `depends_on` name a `conditional_keys` field reads from the
enclosing mapping (empty when the field is absent). -/
def condDepends : Option ConditionalKeys → List String
  | some (ConditionalKeys.mk dep _) => [dep]
  | none => []

/-- Every key name that `validate_expected` can read from the top-level
data mapping it is given: each descriptor's `param_name` plus each
conditional descriptor's `depends_on` name.  (Nested recursion reads
only nested mappings, never the enclosing one.) -/
def mentionedNames : List ExpectedKey → List String
  | [] => []
  | ExpectedKey.mk name _ _ _ cond :: rest =>
    name :: (condDepends cond ++ mentionedNames rest)

mutual
/-- Modelled from the spec contract of optional-key validation
("returns true iff every *present* optional key satisfies its type (and
nested optional constraints); absent optional keys are always
acceptable"): the spec-side satisfaction predicate, one descriptor at a
time, to be compared with the code's `validate_optional`. -/
def optionalSatisfied (j : List (String × JValue)) :
    List OptionalKey → Bool
  | [] => true
  | OptionalKey.mk name ty nested :: rest =>
    optionalSatisfiedKey j (OptionalKey.mk name ty nested) &&
      optionalSatisfied j rest
termination_by oks => sizeOKs oks + 1
decreasing_by
  all_goals simp [sizeOKs, sizeOK]
  all_goals omega

/-- Satisfaction of a single optional descriptor, per the spec contract:
absent is acceptable; present must pass the type check and, for a
mapping-typed descriptor with a nested optional list, the nested
constraints. -/
def optionalSatisfiedKey (j : List (String × JValue)) :
    OptionalKey → Bool
  | OptionalKey.mk name ty nested =>
    !(containsKey j name) ||
      (isinstance (lookupD j name) ty &&
        (match nested with
         | some noks =>
           if ty == JType.dict then
             optionalSatisfied (asDict (lookupD j name)) noks
           else true
         | none => true))
termination_by ok => sizeOK ok
decreasing_by
  all_goals simp [sizeOK, sizeOptOKs]
  all_goals omega
end

/-! ## Theorems -/

/-- C1: if the data mapping contains a key whose name is not in the
union of the required and optional descriptor names, `validate` returns
`Except.ok false`.  The equation holds for every schema — including
schemas on which the presence/type stages would return a different
verdict or raise a schema fault — so the unknown-key rejection decides
the call before any presence or type checking is consulted. -/
theorem c1_unknown_key_rejected (j : List (String × JValue))
    (eks : List ExpectedKey) (oks : Option (List OptionalKey))
    (h : ∃ p ∈ j, (validKeys eks oks).contains p.fst = false) :
    validate j eks oks = Except.ok false := by
  have hall : (j.all fun p => (validKeys eks oks).contains p.fst) = false := by
    rcases h with ⟨p, hp, hc⟩
    rw [List.all_eq_false]
    exact ⟨p, hp, by rw [hc]; simp⟩
  rw [validate.eq_def, hall]
  simp

theorem c1_witness :
    validate [("y", JValue.int 1)]
      [ExpectedKey.mk "x" JType.int none none none] none = Except.ok false :=
  c1_unknown_key_rejected _ _ _
    ⟨("y", JValue.int 1), by simp, by decide⟩

/-- C5: inside `validate_expected`, presence of every expected name is
settled before any type is inspected: a presence failure yields
`Except.ok false` with no assumption at all on the types; a type
failure yields `Except.ok false` only under full presence; and the
per-descriptor refinement loop runs only after both stages pass. -/
theorem c5_presence_before_type (j : List (String × JValue))
    (eks : List ExpectedKey) :
    (allPresent j eks = false → validate_expected j eks = Except.ok false) ∧
    (allPresent j eks = true → allTypes j eks = false →
      validate_expected j eks = Except.ok false) ∧
    (allPresent j eks = true → allTypes j eks = true →
      validate_expected j eks = refineLoop j eks) := by
  refine ⟨?_, ?_, ?_⟩
  · intro h; simp [validate_expected, h]
  · intro h1 h2; simp [validate_expected, h1, h2]
  · intro h1 h2; simp [validate_expected, h1, h2]

theorem c5_witness :
    validate_expected [] [ExpectedKey.mk "a" JType.int none none none] =
      Except.ok false :=
  (c5_presence_before_type [] [ExpectedKey.mk "a" JType.int none none none]).1
    (by decide)

/-- C6: a `validate` verdict of true guarantees that every required
descriptor's name is a key of the data mapping and that the value there
passes the `isinstance` check against the descriptor's expected type. -/
theorem c6_valid_implies_present_typed (j : List (String × JValue))
    (eks : List ExpectedKey) (oks : Option (List OptionalKey))
    (h : validate j eks oks = Except.ok true) :
    ∀ ek ∈ eks, containsKey j ek.param_name = true ∧
      isinstance (lookupD j ek.param_name) ek.param_type = true := by
  have hve : validate_expected j eks = Except.ok true := by
    rw [validate.eq_def] at h
    split at h
    · exact absurd h (by simp)
    · cases hve' : validate_expected j eks with
      | error e => rw [hve'] at h; simp [Except.bind] at h
      | ok b =>
        cases b with
        | false => rw [hve'] at h; simp [Except.bind] at h
        | true => rfl
  have h1 : allPresent j eks = true := by
    by_contra hc
    rw [Bool.not_eq_true] at hc
    simp [validate_expected, hc] at hve
  have h2 : allTypes j eks = true := by
    by_contra hc
    rw [Bool.not_eq_true] at hc
    simp [validate_expected, h1, hc] at hve
  intro ek hek
  refine ⟨?_, ?_⟩
  · simp only [allPresent, List.all_eq_true] at h1
    exact h1 ek hek
  · simp only [allTypes, List.all_eq_true] at h2
    exact h2 ek hek

theorem c6_witness :
    containsKey [("a", JValue.int 1)] "a" = true ∧
    isinstance (lookupD [("a", JValue.int 1)] "a") JType.int = true := by
  have h := c6_valid_implies_present_typed [("a", JValue.int 1)]
      [ExpectedKey.mk "a" JType.int none none none] none
      (by simp [validate.eq_def, validate_expected, refineLoop, condStep,
        allPresent, allTypes, validKeys, containsKey, lookupD, isinstance,
        List.find?, pvViolates, Except.bind, ExpectedKey.param_name,
        ExpectedKey.param_type])
  simpa [ExpectedKey.param_name, ExpectedKey.param_type] using
    h (ExpectedKey.mk "a" JType.int none none none) (by simp)

/-- C9: for a required descriptor carrying a `possible_values` set
(heading the list, with presence and types already verified), a data
value outside the set makes `validate_expected` return
`Except.ok false`, and a member value passes the check, validation
continuing with the remaining descriptors. -/
theorem c9_possible_values_enforced (j : List (String × JValue))
    (name : String) (ty : JType) (pvs : List JValue)
    (rest : List ExpectedKey)
    (h1 : allPresent j (ExpectedKey.mk name ty (some pvs) none none :: rest) = true)
    (h2 : allTypes j (ExpectedKey.mk name ty (some pvs) none none :: rest) = true) :
    (pyMem (lookupD j name) pvs = false →
      validate_expected j (ExpectedKey.mk name ty (some pvs) none none :: rest) =
        Except.ok false) ∧
    (pyMem (lookupD j name) pvs = true →
      validate_expected j (ExpectedKey.mk name ty (some pvs) none none :: rest) =
        refineLoop j rest) := by
  constructor
  · intro hm
    simp [validate_expected, h1, h2, refineLoop, pvViolates, hm]
  · intro hm
    simp [validate_expected, h1, h2, refineLoop, pvViolates, hm, condStep]

theorem c9_witness :
    validate_expected [("mode", JValue.str "c")]
      [ExpectedKey.mk "mode" JType.str
        (some [JValue.str "a", JValue.str "b"]) none none] = Except.ok false ∧
    validate_expected [("mode", JValue.str "a")]
      [ExpectedKey.mk "mode" JType.str
        (some [JValue.str "a", JValue.str "b"]) none none] = Except.ok true := by
  constructor
  · exact (c9_possible_values_enforced [("mode", JValue.str "c")] "mode"
      JType.str [JValue.str "a", JValue.str "b"] [] (by decide) (by decide)).1
      (by decide)
  · have h := (c9_possible_values_enforced [("mode", JValue.str "a")] "mode"
      JType.str [JValue.str "a", JValue.str "b"] [] (by decide) (by decide)).2
      (by decide)
    rw [h]
    simp [refineLoop]

theorem branchStep_of_findBranch_none (j : List (String × JValue))
    (name : String) (v : JValue) :
    ∀ info : List (JValue × Branch), findBranch info v = none →
      branchStep j name v info = Except.error (PyError.missingBranch v) := by
  intro info
  induction info with
  | nil => intro h; simp [branchStep]
  | cons q rest ih =>
    obtain ⟨w, b⟩ := q
    obtain ⟨beks, boks⟩ := b
    intro h
    simp only [findBranch] at h
    by_cases hw : pyEq w v = true
    · simp [hw] at h
    · rw [Bool.not_eq_true] at hw
      simp only [hw, if_neg] at h
      simp only [branchStep, hw]
      simpa using ih h

theorem branchStep_of_findBranch_some (j : List (String × JValue))
    (name : String) (v : JValue) (b : Branch) :
    ∀ info : List (JValue × Branch), findBranch info v = some b →
      branchStep j name v info =
        validate (asDict (lookupD j name)) b.expected_keys
          (some b.optional_keys) := by
  intro info
  induction info with
  | nil => intro h; simp [findBranch] at h
  | cons q rest ih =>
    obtain ⟨w, b'⟩ := q
    obtain ⟨beks, boks⟩ := b'
    intro h
    simp only [findBranch] at h
    by_cases hw : pyEq w v = true
    · simp only [hw, if_pos] at h
      simp only [Option.some.injEq] at h
      subst h
      simp [branchStep, hw, Branch.expected_keys, Branch.optional_keys]
    · rw [Bool.not_eq_true] at hw
      simp only [hw, if_neg] at h
      simp only [branchStep, hw]
      simpa using ih h

/-- C2: when required-key validation reaches a conditional descriptor
whose dependency value has no matching entry in the branch mapping, the
engine raises (the raw `dependence_info[depends_on_val]` subscript
fails), surfaced here as `Except.error` — a schema fault distinct by
constructor from every ordinary `Except.ok false` verdict. -/
theorem c2_unmatched_branch_is_schema_fault (j : List (String × JValue))
    (name dep : String) (info : List (JValue × Branch))
    (rest : List ExpectedKey) (v : JValue)
    (h1 : allPresent j (ExpectedKey.mk name JType.dict none none
      (some (ConditionalKeys.mk dep info)) :: rest) = true)
    (h2 : allTypes j (ExpectedKey.mk name JType.dict none none
      (some (ConditionalKeys.mk dep info)) :: rest) = true)
    (h3 : lookupE j dep = Except.ok v)
    (h4 : findBranch info v = none) :
    validate_expected j (ExpectedKey.mk name JType.dict none none
      (some (ConditionalKeys.mk dep info)) :: rest) =
      Except.error (PyError.missingBranch v) := by
  simp [validate_expected, h1, h2, refineLoop, pvViolates, condStep, h3,
    Except.bind, branchStep_of_findBranch_none j name v info h4]

theorem c2_witness :
    validate_expected [("kind", JValue.str "other"), ("info", JValue.dict [])]
      [ExpectedKey.mk "info" JType.dict none none
        (some (ConditionalKeys.mk "kind"
          [(JValue.str "local",
            Branch.mk [ExpectedKey.mk "path" JType.str none none none] []),
           (JValue.str "remote",
            Branch.mk [ExpectedKey.mk "url" JType.str none none none] [])]))] =
      Except.error (PyError.missingBranch (JValue.str "other")) :=
  c2_unmatched_branch_is_schema_fault
    [("kind", JValue.str "other"), ("info", JValue.dict [])] "info" "kind"
    [(JValue.str "local",
      Branch.mk [ExpectedKey.mk "path" JType.str none none none] []),
     (JValue.str "remote",
      Branch.mk [ExpectedKey.mk "url" JType.str none none none] [])]
    [] (JValue.str "other") (by decide) (by decide) rfl rfl

/-- C3 counterexample: a mapping-typed required descriptor with a fixed
nested sub-schema does not recurse through the orchestration: the
nested mapping `{"port": 80, "extra": 1}` carries the unknown key
"extra", yet the whole validation succeeds; by contrast, running the
orchestration itself on that nested mapping with the nested required
list rejects it.  So nested fixed sub-schemas are not checked for
unknown keys, and the recursion cannot be through `validate`. -/
theorem c3_counterexample :
    validate [("cfg", JValue.dict [("port", JValue.int 80), ("extra", JValue.int 1)])]
      [ExpectedKey.mk "cfg" JType.dict none
        (some [ExpectedKey.mk "port" JType.int none none none]) none] none =
      Except.ok true ∧
    validate [("port", JValue.int 80), ("extra", JValue.int 1)]
      [ExpectedKey.mk "port" JType.int none none none] none =
      Except.ok false := by
  constructor
  · simp [validate.eq_def, validate_expected, refineLoop, condStep, allPresent,
      allTypes, validKeys, containsKey, lookupD, asDict, isinstance,
      List.find?, pvViolates, Except.bind, ExpectedKey.param_name,
      ExpectedKey.param_type]
  · simp [validate.eq_def, validate_expected, refineLoop, condStep, allPresent,
      allTypes, validKeys, containsKey, lookupD, asDict, isinstance,
      List.find?, pvViolates, Except.bind, ExpectedKey.param_name,
      ExpectedKey.param_type]

/-- C3 amended: required-key validation recurses on a fixed nested
sub-schema through `validate_expected` itself (not through the
orchestration), passing only the nested required list: a nested error
or false verdict propagates, a nested true verdict lets the loop
continue with the remaining descriptors.  No unknown-key rejection and
no optional-list handling is applied to the nested mapping. -/
theorem c3_nested_fixed_subschema_via_validate_expected
    (j : List (String × JValue)) (name : String)
    (nek : List ExpectedKey) (rest : List ExpectedKey)
    (h1 : allPresent j (ExpectedKey.mk name JType.dict none (some nek) none :: rest) = true)
    (h2 : allTypes j (ExpectedKey.mk name JType.dict none (some nek) none :: rest) = true) :
    validate_expected j (ExpectedKey.mk name JType.dict none (some nek) none :: rest) =
      (validate_expected (asDict (lookupD j name)) nek).bind
        (fun b => if b then refineLoop j rest else Except.ok false) := by
  simp [validate_expected, h1, h2, refineLoop, pvViolates, condStep]

theorem c3_witness :
    validate_expected [("cfg", JValue.dict [("port", JValue.str "80")])]
      [ExpectedKey.mk "cfg" JType.dict none
        (some [ExpectedKey.mk "port" JType.int none none none]) none] =
      Except.ok false := by
  have h := c3_nested_fixed_subschema_via_validate_expected
    [("cfg", JValue.dict [("port", JValue.str "80")])] "cfg"
    [ExpectedKey.mk "port" JType.int none none none] [] (by decide) (by decide)
  rw [h]
  simp [validate_expected, refineLoop, condStep, allPresent, allTypes,
    containsKey, lookupD, asDict, isinstance, List.find?, pvViolates,
    Except.bind, ExpectedKey.param_name, ExpectedKey.param_type]

/-- C4: once the per-descriptor loop reaches a conditional descriptor
(here at the head of the remaining list, its value-set check vacuous)
whose dependency value selects a branch, the orchestration verdict on
the nested mapping with that branch's lists is returned directly: the
equation holds for every tail `rest` of sibling descriptors, which are
therefore never examined; under full presence and type checks the same
verdict is the verdict of the whole `validate_expected` call. -/
theorem c4_conditional_short_circuit (j : List (String × JValue))
    (name dep : String) (info : List (JValue × Branch)) (v : JValue)
    (b : Branch)
    (h3 : lookupE j dep = Except.ok v)
    (h4 : findBranch info v = some b) :
    (∀ rest : List ExpectedKey,
      refineLoop j (ExpectedKey.mk name JType.dict none none
          (some (ConditionalKeys.mk dep info)) :: rest) =
        validate (asDict (lookupD j name)) b.expected_keys
          (some b.optional_keys)) ∧
    (∀ rest : List ExpectedKey,
      allPresent j (ExpectedKey.mk name JType.dict none none
        (some (ConditionalKeys.mk dep info)) :: rest) = true →
      allTypes j (ExpectedKey.mk name JType.dict none none
        (some (ConditionalKeys.mk dep info)) :: rest) = true →
      validate_expected j (ExpectedKey.mk name JType.dict none none
          (some (ConditionalKeys.mk dep info)) :: rest) =
        validate (asDict (lookupD j name)) b.expected_keys
          (some b.optional_keys)) := by
  have hloop : ∀ rest : List ExpectedKey,
      refineLoop j (ExpectedKey.mk name JType.dict none none
          (some (ConditionalKeys.mk dep info)) :: rest) =
        validate (asDict (lookupD j name)) b.expected_keys
          (some b.optional_keys) := by
    intro rest
    simp [refineLoop, pvViolates, condStep, h3, Except.bind,
      branchStep_of_findBranch_some j name v b info h4]
  refine ⟨hloop, fun rest h1 h2 => ?_⟩
  have hstage : validate_expected j (ExpectedKey.mk name JType.dict none none
      (some (ConditionalKeys.mk dep info)) :: rest) =
      refineLoop j (ExpectedKey.mk name JType.dict none none
        (some (ConditionalKeys.mk dep info)) :: rest) := by
    simp [validate_expected, h1, h2]
  rw [hstage]
  exact hloop rest

theorem c4_witness :
    validate_expected
      [("kind", JValue.str "local"),
       ("info", JValue.dict [("path", JValue.str "/tmp")])]
      [ExpectedKey.mk "info" JType.dict none none
         (some (ConditionalKeys.mk "kind"
           [(JValue.str "local",
             Branch.mk [ExpectedKey.mk "path" JType.str none none none] []),
            (JValue.str "remote",
             Branch.mk [ExpectedKey.mk "url" JType.str none none none] [])])),
       ExpectedKey.mk "kind" JType.str (some [JValue.str "nope"]) none none] =
      Except.ok true := by
  have h := (c4_conditional_short_circuit
    [("kind", JValue.str "local"),
     ("info", JValue.dict [("path", JValue.str "/tmp")])]
    "info" "kind"
    [(JValue.str "local",
      Branch.mk [ExpectedKey.mk "path" JType.str none none none] []),
     (JValue.str "remote",
      Branch.mk [ExpectedKey.mk "url" JType.str none none none] [])]
    (JValue.str "local")
    (Branch.mk [ExpectedKey.mk "path" JType.str none none none] [])
    rfl rfl).2
    [ExpectedKey.mk "kind" JType.str (some [JValue.str "nope"]) none none]
    (by decide) (by decide)
  rw [h]
  simp [validate.eq_def, validate_expected, refineLoop, condStep,
    validate_optional, allPresent, allTypes, validKeys, containsKey, lookupD,
    asDict, isinstance, List.find?, pvViolates, Except.bind,
    Branch.expected_keys, Branch.optional_keys, ExpectedKey.param_name,
    ExpectedKey.param_type]

theorem validate_optional_of_satisfied :
    ∀ (n : Nat) (j : List (String × JValue)) (oks : List OptionalKey),
      sizeOKs oks ≤ n → optionalSatisfied j oks = true →
      validate_optional j oks = true := by
  intro n
  induction n with
  | zero =>
    intro j oks hle hsat
    cases oks with
    | nil => simp [validate_optional]
    | cons ok rest =>
      obtain ⟨name, ty, nested⟩ := ok
      simp [sizeOKs, sizeOK] at hle
  | succ n ih =>
    intro j oks hle hsat
    cases oks with
    | nil => simp [validate_optional]
    | cons ok rest =>
      obtain ⟨name, ty, nested⟩ := ok
      simp only [sizeOKs, sizeOK] at hle
      simp only [optionalSatisfied, Bool.and_eq_true] at hsat
      obtain ⟨hkey, hrest⟩ := hsat
      have hihrest : validate_optional j rest = true :=
        ih j rest (by omega) hrest
      cases nested with
      | some noks =>
        simp only [optionalSatisfiedKey] at hkey
        simp only [validate_optional]
        by_cases hc : containsKey j name = true
        · rw [hc] at hkey
          simp only [Bool.not_true, Bool.false_or, Bool.and_eq_true] at hkey
          obtain ⟨hisinst, hnest⟩ := hkey
          by_cases hty : (ty == JType.dict) = true
          · rw [hty] at hnest
            simp only [if_pos] at hnest
            simp [hc, hisinst, hty]
            exact ih (asDict (lookupD j name)) noks
              (by simp only [sizeOptOKs] at hle; omega) hnest
          · rw [Bool.not_eq_true] at hty
            simp [hc, hisinst, hty]
            exact hihrest
        · rw [Bool.not_eq_true] at hc
          simp [hc]
          exact hihrest
      | none =>
        simp only [optionalSatisfiedKey] at hkey
        simp only [validate_optional]
        by_cases hc : containsKey j name = true
        · rw [hc] at hkey
          simp only [Bool.not_true, Bool.false_or, Bool.and_true] at hkey
          by_cases hty : (ty == JType.dict) = true
          · simp [hc, hkey, hty]
            exact hihrest
          · rw [Bool.not_eq_true] at hty
            simp [hc, hkey, hty]
            exact hihrest
        · rw [Bool.not_eq_true] at hc
          simp [hc]
          exact hihrest

/-- C7 counterexample: `validate_optional` can return true while a
present optional key violates its type.  With descriptors
`a : dict` (carrying a nested optional list) and `b : int`, and data
where `a` maps to an empty dict and `b` to a string, the first
descriptor returns its nested verdict directly, so `b` is never
type-checked: the verdict is true even though `b` is present with the
wrong type — refuting the claimed "only if" direction. -/
theorem c7_counterexample :
    validate_optional [("a", JValue.dict []), ("b", JValue.str "s")]
      [OptionalKey.mk "a" JType.dict (some []),
       OptionalKey.mk "b" JType.int none] = true ∧
    containsKey [("a", JValue.dict []), ("b", JValue.str "s")] "b" = true ∧
    isinstance (lookupD [("a", JValue.dict []), ("b", JValue.str "s")] "b")
      JType.int = false := by
  refine ⟨?_, by decide, by decide⟩
  simp [validate_optional, containsKey, lookupD, asDict, isinstance,
    List.find?]

/-- C7 amended: if every present optional key satisfies its type and
(for mapping-typed descriptors with nested lists) its nested optional
constraints, then `validate_optional` returns true; absent optional
keys never cause failure (in particular `validate` over empty data with
one optional key returns true).  The converse direction is false (see
the counterexample): the first present mapping-typed descriptor with a
nested list returns its nested verdict directly, skipping later
siblings. -/
theorem c7_amended (j : List (String × JValue)) (oks : List OptionalKey) :
    (optionalSatisfied j oks = true → validate_optional j oks = true) ∧
    validate [] [] (some [OptionalKey.mk "x" JType.int none]) =
      Except.ok true := by
  constructor
  · exact fun h => validate_optional_of_satisfied (sizeOKs oks) j oks le_rfl h
  · simp [validate.eq_def, validate_expected, refineLoop, validate_optional,
      allPresent, allTypes, validKeys, containsKey, Except.bind,
      OptionalKey.param_name]

theorem c7_witness : validate_optional [("x", JValue.int 7)]
    [OptionalKey.mk "x" JType.int none] = true :=
  (c7_amended [("x", JValue.int 7)] [OptionalKey.mk "x" JType.int none]).1
    (by simp [optionalSatisfied, optionalSatisfiedKey, containsKey, lookupD,
      isinstance, List.find?])

/-- C8: in optional-key validation, a present mapping-typed descriptor
carrying its own nested optional list (at the head of the descriptor
list) returns the nested recursive verdict as the verdict of the whole
call: the equation holds for every tail `rest`, so sibling descriptors
after it are never checked. -/
theorem c8_optional_nested_short_circuit (j : List (String × JValue))
    (name : String) (noks : List OptionalKey)
    (h1 : containsKey j name = true)
    (h2 : isinstance (lookupD j name) JType.dict = true) :
    ∀ rest : List OptionalKey,
      validate_optional j (OptionalKey.mk name JType.dict (some noks) :: rest) =
        validate_optional (asDict (lookupD j name)) noks := by
  intro rest
  simp [validate_optional, h1, h2]

theorem c8_witness :
    validate_optional [("a", JValue.dict []), ("b", JValue.str "s")]
      [OptionalKey.mk "a" JType.dict (some []),
       OptionalKey.mk "b" JType.bool none] = true := by
  rw [c8_optional_nested_short_circuit
    [("a", JValue.dict []), ("b", JValue.str "s")] "a" []
    (by decide) (by decide) [OptionalKey.mk "b" JType.bool none]]
  simp [validate_optional]

theorem find?_key_cons_ne (k n : String) (v : JValue)
    (j : List (String × JValue)) (hne : n ≠ k) :
    List.find? (fun p => p.fst == n) ((k, v) :: j) =
      List.find? (fun p => p.fst == n) j := by
  rw [List.find?_cons_of_neg]
  simp [beq_iff_eq]
  exact Ne.symm hne

theorem containsKey_cons_ne (k n : String) (v : JValue)
    (j : List (String × JValue)) (hne : n ≠ k) :
    containsKey ((k, v) :: j) n = containsKey j n := by
  simp [containsKey, List.any_cons, beq_iff_eq, Ne.symm hne]

theorem lookupD_cons_ne (k n : String) (v : JValue)
    (j : List (String × JValue)) (hne : n ≠ k) :
    lookupD ((k, v) :: j) n = lookupD j n := by
  unfold lookupD
  rw [find?_key_cons_ne k n v j hne]

theorem lookupE_cons_ne (k n : String) (v : JValue)
    (j : List (String × JValue)) (hne : n ≠ k) :
    lookupE ((k, v) :: j) n = lookupE j n := by
  unfold lookupE
  rw [find?_key_cons_ne k n v j hne]

theorem allPresent_cons_ne (k : String) (v : JValue)
    (j : List (String × JValue)) :
    ∀ eks : List ExpectedKey, (∀ ek ∈ eks, ek.param_name ≠ k) →
      allPresent ((k, v) :: j) eks = allPresent j eks := by
  intro eks
  induction eks with
  | nil => intro h; rfl
  | cons e rest ih =>
    intro h
    simp only [allPresent, List.all_cons] at ih ⊢
    rw [containsKey_cons_ne k e.param_name v j (h e (List.mem_cons_self e rest)),
      ih (fun x hx => h x (List.mem_cons_of_mem e hx))]

theorem allTypes_cons_ne (k : String) (v : JValue)
    (j : List (String × JValue)) :
    ∀ eks : List ExpectedKey, (∀ ek ∈ eks, ek.param_name ≠ k) →
      allTypes ((k, v) :: j) eks = allTypes j eks := by
  intro eks
  induction eks with
  | nil => intro h; rfl
  | cons e rest ih =>
    intro h
    simp only [allTypes, List.all_cons] at ih ⊢
    rw [lookupD_cons_ne k e.param_name v j (h e (List.mem_cons_self e rest)),
      ih (fun x hx => h x (List.mem_cons_of_mem e hx))]

theorem branchStep_cons_ne (k : String) (v : JValue)
    (j : List (String × JValue)) (name : String) (w : JValue)
    (hne : name ≠ k) :
    ∀ info : List (JValue × Branch),
      branchStep ((k, v) :: j) name w info = branchStep j name w info := by
  intro info
  induction info with
  | nil => simp [branchStep]
  | cons q rest ih =>
    obtain ⟨u, b⟩ := q
    obtain ⟨beks, boks⟩ := b
    simp only [branchStep]
    rw [lookupD_cons_ne k name v j hne]
    by_cases hu : pyEq u w = true
    · simp [hu]
    · rw [Bool.not_eq_true] at hu
      simp [hu, ih]

theorem refineLoop_cons_ne (k : String) (v : JValue)
    (j : List (String × JValue)) :
    ∀ eks : List ExpectedKey, (∀ n ∈ mentionedNames eks, n ≠ k) →
      refineLoop ((k, v) :: j) eks = refineLoop j eks := by
  intro eks
  induction eks with
  | nil => intro h; simp [refineLoop]
  | cons e rest ih =>
    obtain ⟨name, ty, pv, nested, cond⟩ := e
    intro h
    have hname : name ≠ k := h name (by simp [mentionedNames])
    have hrest : ∀ n ∈ mentionedNames rest, n ≠ k := by
      intro n hn
      apply h
      simp only [mentionedNames, List.mem_cons, List.mem_append]
      exact Or.inr (Or.inr hn)
    have hpv : pvViolates ((k, v) :: j) name pv = pvViolates j name pv := by
      cases pv <;> simp [pvViolates, lookupD_cons_ne k name v j hname]
    have hcond : condStep ((k, v) :: j) name cond rest =
        condStep j name cond rest := by
      cases cond with
      | none => simp only [condStep]; exact ih hrest
      | some ck =>
        obtain ⟨dep, info⟩ := ck
        have hdep : dep ≠ k := by
          apply h
          simp [mentionedNames, condDepends]
        simp only [condStep]
        rw [lookupE_cons_ne k dep v j hdep]
        cases lookupE j dep with
        | error e => simp [Except.bind]
        | ok w => simp [Except.bind, branchStep_cons_ne k v j name w hname info]
    cases nested with
    | some nek =>
      simp only [refineLoop]
      rw [hpv, lookupD_cons_ne k name v j hname, hcond, ih hrest]
    | none =>
      simp only [refineLoop]
      rw [hpv, hcond, ih hrest]

theorem param_name_mem_mentionedNames (ek : ExpectedKey) :
    ∀ eks : List ExpectedKey, ek ∈ eks →
      ek.param_name ∈ mentionedNames eks := by
  intro eks
  induction eks with
  | nil => intro h; cases h
  | cons e rest ih =>
    obtain ⟨name, ty, pv, nested, cond⟩ := e
    intro h
    rcases List.mem_cons.mp h with h | h
    · subst h
      simp [mentionedNames, ExpectedKey.param_name]
    · simp only [mentionedNames, List.mem_cons, List.mem_append]
      exact Or.inr (Or.inr (ih h))

theorem validate_expected_insensitive (k : String) (v : JValue)
    (j : List (String × JValue)) (eks : List ExpectedKey)
    (hk : ∀ n ∈ mentionedNames eks, n ≠ k) :
    validate_expected ((k, v) :: j) eks = validate_expected j eks := by
  have hp : ∀ ek ∈ eks, ek.param_name ≠ k := fun ek hek =>
    hk ek.param_name (param_name_mem_mentionedNames ek eks hek)
  simp only [validate_expected]
  rw [allPresent_cons_ne k v j eks hp, allTypes_cons_ne k v j eks hp,
    refineLoop_cons_ne k v j eks hk]

/-- C10 counterexample: a key that no descriptor names can still make
`validate_expected` return false.  With one conditional descriptor
`a : dict` depending on the sibling key "x" (named by no descriptor),
the data `{"a": {}, "x": 1}` selects the branch requiring "p" inside
`a`, so the verdict is `Except.ok false` — while without the unnamed
key "x" the very same schema raises a `KeyError` instead.  So "keys not
named by any descriptor never cause validate_expected to return false"
fails as stated: it holds only for keys also not referenced by a
conditional descriptor's `depends_on`. -/
theorem c10_counterexample :
    validate_expected [("a", JValue.dict []), ("x", JValue.int 1)]
      [ExpectedKey.mk "a" JType.dict none none
        (some (ConditionalKeys.mk "x"
          [(JValue.int 1,
            Branch.mk [ExpectedKey.mk "p" JType.int none none none] []),
           (JValue.int 2, Branch.mk [] [])]))] = Except.ok false ∧
    validate_expected [("a", JValue.dict [])]
      [ExpectedKey.mk "a" JType.dict none none
        (some (ConditionalKeys.mk "x"
          [(JValue.int 1,
            Branch.mk [ExpectedKey.mk "p" JType.int none none none] []),
           (JValue.int 2, Branch.mk [] [])]))] =
      Except.error (PyError.missingKey "x") ∧
    List.map ExpectedKey.param_name
      [ExpectedKey.mk "a" JType.dict none none
        (some (ConditionalKeys.mk "x"
          [(JValue.int 1,
            Branch.mk [ExpectedKey.mk "p" JType.int none none none] []),
           (JValue.int 2, Branch.mk [] [])]))] = ["a"] := by
  refine ⟨?_, ?_, by decide⟩
  · simp [validate.eq_def, validate_expected, refineLoop, condStep, branchStep,
      findBranch, allPresent, allTypes, validKeys, containsKey, lookupD,
      lookupE, asDict, isinstance, List.find?, pvViolates, pyEq, Except.bind,
      ExpectedKey.param_name, ExpectedKey.param_type]
  · simp [validate_expected, refineLoop, condStep, branchStep, findBranch,
      allPresent, allTypes, containsKey, lookupD, lookupE, asDict, isinstance,
      List.find?, pvViolates, pyEq, Except.bind, ExpectedKey.param_name,
      ExpectedKey.param_type]

/-- C10 amended: `validate_expected` performs no unknown-key rejection:
prepending an entry whose key is neither any descriptor's `param_name`
nor any conditional descriptor's `depends_on` name leaves its verdict
unchanged, and with an empty descriptor list it returns true on every
mapping, however many keys the mapping has.  (The `depends_on`
exclusion is forced by the counterexample: a key referenced only as a
dependency can change the verdict through branch selection.) -/
theorem c10_amended (k : String) (v : JValue) :
    (∀ (j : List (String × JValue)) (eks : List ExpectedKey),
      k ∉ mentionedNames eks →
      validate_expected ((k, v) :: j) eks = validate_expected j eks) ∧
    (∀ j : List (String × JValue), validate_expected j [] = Except.ok true) := by
  constructor
  · intro j eks hk
    exact validate_expected_insensitive k v j eks
      (fun n hn hnk => hk (hnk ▸ hn))
  · intro j
    simp [validate_expected, allPresent, allTypes, refineLoop]

theorem c10_witness :
    validate_expected [("z", JValue.int 9), ("a", JValue.int 1)]
      [ExpectedKey.mk "a" JType.int none none none] =
      validate_expected [("a", JValue.int 1)]
        [ExpectedKey.mk "a" JType.int none none none] :=
  (c10_amended "z" (JValue.int 9)).1 [("a", JValue.int 1)]
    [ExpectedKey.mk "a" JType.int none none none] (by decide)
